import Mathlib

/-!
Verification of the content pipeline of the `static-site-gen` repository
(`src/main.rs`, `src/post.rs`): the markdown token stream transformers
(metadata extraction, code highlighting, image embedding, math rendering)
and the content-addressed asset store.

External libraries used by the code (pulldown-cmark, arborium, svgcleaner,
the `image` and `url` crates, pulldown-latex, toml, the std `DefaultHasher`)
are modelled as abstract function parameters collected in a context
structure `Ctx`; the control flow around them is translated from the
source.  Machine integers are `Nat` with explicit `% 2 ^ w` where the
source truncates (`hasher.finish() & 0xffff`, `u64` hashes).
-/

set_option autoImplicit false

namespace SSG

/-! ### Hexadecimal formatting (Rust `format!("{:04x}", _)` / `format!("{:016x}", _)`) -/

/-- One lowercase hex digit, as produced by Rust's `{:x}` formatting
for a digit value `n < 16`: `0`-`9` then `a`-`f`. -/
def hexDigit (n : Nat) : Char :=
  if n < 10 then Char.ofNat (48 + n) else Char.ofNat (87 + n)

/-- Numeric value of a hex digit character; left inverse of `hexDigit`. -/
def hexVal (c : Char) : Nat :=
  if 48 ≤ c.toNat ∧ c.toNat < 58 then c.toNat - 48 else c.toNat - 87

/-- Rust `format!("{:04x}", h)` for `h < 2 ^ 16`: exactly four lowercase hex
digits, most significant first.  (For `h < 2 ^ 16` the `{:04x}` padding
always yields exactly 4 digits.) -/
def hex4 (h : Nat) : String :=
  ⟨[hexDigit (h / 4096 % 16), hexDigit (h / 256 % 16),
    hexDigit (h / 16 % 16), hexDigit (h % 16)]⟩

/-- Rust `format!("{:016x}", h)` for `h < 2 ^ 64`: exactly sixteen lowercase
hex digits, most significant first. -/
def hex16 (h : Nat) : String :=
  ⟨(List.range 16).map fun k => hexDigit (h / 16 ^ (15 - k) % 16)⟩

/-- A character is a lowercase hexadecimal digit. -/
def isHexChar (c : Char) : Bool :=
  c.isDigit || ('a' ≤ c && c ≤ 'f')

/-! ### Token model (`pulldown_cmark::Event`)

Only the event shapes the pipeline inspects are distinguished:
`Text`, `InlineMath`, `DisplayMath`, `Html`, the start/end of fenced code
blocks (`Tag::CodeBlock(CodeBlockKind::Fenced(lang))` / `TagEnd::CodeBlock`),
of images (`Tag::Image { dest_url, .. }` / `TagEnd::Image`) and of
pluses-style metadata blocks.  Every other `pulldown_cmark` event kind
(paragraphs, headings, indented code blocks, yaml metadata blocks, ...)
falls into the catch-all `Other` constructor: the processors treat all of
them uniformly through their `_` match arms. -/

inductive Event where
  | Text (s : String)
  | InlineMath (s : String)
  | DisplayMath (s : String)
  | Html (s : String)
  | StartCodeBlock (language : String)
  | EndCodeBlock
  | StartImage (destUrl : String)
  | EndImage
  | StartMetadataBlock
  | EndMetadataBlock
  | Other (s : String)
deriving DecidableEq, Repr

/-- The `cmark::TagEnd` values used as end markers by the pipeline. -/
inductive TagEnd where
  | CodeBlock
  | Image
  | MetadataBlock
deriving DecidableEq, Repr

/-- The guard `cmark::Event::End(t) if t == tag` of `accumulate_plain_text`. -/
def matchesEnd (ev : Event) (tag : TagEnd) : Bool :=
  match ev, tag with
  | .EndCodeBlock, .CodeBlock => true
  | .EndImage, .Image => true
  | .EndMetadataBlock, .MetadataBlock => true
  | _, _ => false

/-- The text contribution of a token to the accumulator of
`accumulate_plain_text`: `Text(t)` contributes `t`, `InlineMath(m)`
contributes `$m$`, anything else aborts accumulation. -/
def accTok (ev : Event) : Option String :=
  match ev with
  | .Text t => some t
  | .InlineMath m => some ("$" ++ m ++ "$")
  | _ => none

/-- Tokens that are legal inside an accumulated block (plain text or
inline math). -/
def isAccTok (ev : Event) : Bool :=
  (accTok ev).isSome

/-- The full accumulated text of a list of legal block tokens. -/
def accText (l : List Event) : String :=
  match l with
  | [] => ""
  | ev :: rest => (accTok ev).getD "" ++ accText rest

/-! ### Document metadata (`PostMeta`, `PostMetaIncomplete`) -/

/-- The type `toml_datetime::Datetime` is never inspected by the pipeline, only
moved around; it is modelled as an abstract token (a string). -/
abbrev Datetime := String

/-- Rust `struct PostMeta` from `src/post.rs`. -/
structure PostMeta where
  title : String
  date : Datetime
  tags : List String
  ghcomment : Option (Nat × List String)
deriving DecidableEq, Repr

/-- Rust `struct PostMetaIncomplete` from `src/post.rs`: the result of
`toml::from_str` on a metadata block, all fields optional. -/
structure PostMetaIncomplete where
  title : Option String
  date : Option Datetime
  tags : Option (List String)
  ghcommentid : Option Nat
  ghcommentauthors : Option (List String)
deriving DecidableEq, Repr

/-- Rust's `Option::zip`: `Some` exactly when both arguments are. -/
def optZip {α β : Type} : Option α → Option β → Option (α × β)
  | some a, some b => some (a, b)
  | _, _ => none

/-! ### SVG document model (`svgdom::Document`)

The pipeline only inspects svg documents through: node types (for the
`drain` call), element ids (`has_id` / `id` / `set_id`), and the external
cleaning/serialization functions.  A document is modelled as the list of
its descendant nodes. -/

inductive NodeType where
  | Element
  | TextNode
  | OtherNode
deriving DecidableEq, Repr

structure SvgNode where
  ntype : NodeType
  id : Option String
deriving DecidableEq, Repr

structure SvgDoc where
  nodes : List SvgNode
deriving DecidableEq, Repr

/-- The call `document.drain(|c| !matches!(c.node_type(), Element | Text))`:
remove every node that is neither an element nor a text node. -/
def svgDrain (d : SvgDoc) : SvgDoc :=
  ⟨d.nodes.filter fun n => n.ntype = NodeType.Element ∨ n.ntype = NodeType.TextNode⟩

/-- The id-prefixing loop of `handle_svg_image`:
for every svg element that has an id, `node.set_id(format!("{:04x}-{}", hash, node.id()))`. -/
def prefixIds (hash : Nat) (d : SvgDoc) : SvgDoc :=
  ⟨d.nodes.map fun n =>
    if n.ntype = NodeType.Element then
      match n.id with
      | some i => { n with id := some (hex4 hash ++ "-" ++ i) }
      | none => n
    else n⟩

/-- The ids carried by the svg elements of a document. -/
def elementIds (d : SvgDoc) : List String :=
  d.nodes.filterMap fun n => if n.ntype = NodeType.Element then n.id else none

/-! ### External collaborators -/

/-- Errors of `arborium`: an unsupported language, or any other highlighter
error (the code distinguishes them only in its log lines). -/
inductive HlError where
  | UnsupportedLanguage (language : String)
  | OtherError (msg : String)
deriving DecidableEq, Repr

/-- Errors of `url::Url::parse`: the code branches only on whether the error is
`RelativeUrlWithoutBase`. -/
inductive UrlParseError where
  | RelativeUrlWithoutBase
  | OtherError (msg : String)
deriving DecidableEq, Repr

/-- The type `image::DynamicImage`, abstract (decoded pixel data). -/
abbrev Image := Nat

/-- Context of external functions: the libraries called by the pipeline
and the `PostBuilder` environment (default metadata, file resolution).
The pipeline's own control flow is defined on top of these. -/
structure Ctx where
  /-- Call `arborium::Highlighter::highlight(language, source)`. -/
  highlight : String → String → Except HlError String
  /-- Call `toml::from_str::<PostMetaIncomplete>`. -/
  parseMeta : String → Except String PostMetaIncomplete
  /-- Call `PostBuilder::get_default_title()` (filename derived). -/
  defaultTitle : String
  /-- Call `PostBuilder::get_default_date()` (file creation time derived). -/
  defaultDate : Datetime
  /-- Call `url::Url::parse(dest_url)`, result collapsed to success/error. -/
  parseUrl : String → Except UrlParseError Unit
  /-- Call `PostBuilder::resolve_file(dest_url)`: join to the post's directory
  and require an existing file. -/
  resolveFile : String → Option String
  /-- Test `path.extension().and_then(|e| e.to_str()) == Some("svg")`. -/
  isSvgPath : String → Bool
  /-- Call `std::fs::File::open(path)` + `read_to_string` for svg sources. -/
  readFile : String → Except String String
  /-- Call `svgcleaner::cleaner::parse_data(source, &Default::default())`. -/
  svgParse : String → Option SvgDoc
  /-- Call `clean_doc(..)` plus the accessibility-attribute block (set
  `role="img"`, prepend a `<title>` holding the alt text); `none` when any
  step fails. -/
  svgClean : SvgDoc → String → Option SvgDoc
  /-- Call `svgcleaner::cleaner::write_buffer` + `String::from_utf8_lossy`. -/
  svgWrite : SvgDoc → String
  /-- A `DefaultHasher` run over a string (`source.hash(&mut hasher)`,
  `hasher.finish()`), an arbitrary `u64`-valued hash. -/
  hashStr : String → Nat
  /-- Call `image::open(path)`. -/
  imageOpen : String → Except String Image
  /-- lossless WebP re-encoding (`WebPEncoder::new_lossless` +
  `write_with_encoder`). -/
  webpEncode : Image → Except String (List Nat)
  /-- A `DefaultHasher` run over a byte buffer (`hasher.write(&asset)`,
  `hasher.finish()`), an arbitrary `u64`-valued hash. -/
  hashBytes : List Nat → Nat

/-! ### The content-addressed asset store (`src/main.rs`) -/

/-- Value `2 ^ 64`: the width of `hasher.finish()`. -/
def U64 : Nat := 18446744073709551616

/-- The `assets: HashMap<u64, (Vec<u8>, String)>` field of `SiteBuilder`,
as an association list (insertion at the front, first match wins; keys
are never duplicated because an existing key is never re-inserted). -/
abbrev Assets := List (Nat × List Nat × String)

def lookupAsset : Assets → Nat → Option (List Nat × String)
  | [], _ => none
  | (k, b, e) :: rest, h => if k = h then some (b, e) else lookupAsset rest h

/-- Function `SiteBuilder::asset_path` of `src/main.rs`. -/
def asset_path (hash : Nat) (ext : String) : String :=
  "assets/" ++ hex16 hash ++ "." ++ ext

/-- Function `SiteBuilder::store_asset` of `src/main.rs`: hash the bytes, insert the entry only if
the hash is absent (`entry(hash).or_insert_with(..)`), and return the
path built from the hash and the *stored* extension. -/
def store_asset (hashBytes : List Nat → Nat) (assets : Assets)
    (asset : List Nat) (ext : String) : String × Assets :=
  let hash := hashBytes asset % U64
  match lookupAsset assets hash with
  | some (_, e) => (asset_path hash e, assets)
  | none => (asset_path hash ext, (hash, asset, ext) :: assets)

/-! ### Image handlers (`CodeImageProcessor::handle_svg_image` / `handle_raster_image`)

In the source the handlers mutate `self.buffer` (which at the call site
holds the tokens pulled by `accumulate_plain_text`: the alt-content
tokens followed by the image-end token) and return the event to emit.
Here they take the buffer and return `(emitted event, new buffer)`
(plus the updated asset store for the raster handler); the source's
`Option<Event>` return value is `Some` on every path. -/

/-- The `cleaned` string computed by `handle_svg_image`: parse the
source; on success clean it and set the accessibility attributes; if
either fails fall back to the raw source; otherwise hash the *original*
source (`source.hash(&mut hasher)`, truncated to 16 bits), drain
non-element/text nodes, prefix every element id with the hash, and
serialize. -/
def svg_cleaned (ctx : Ctx) (source : String) (alt : String) : String :=
  match ctx.svgParse source with
  | some document =>
    match ctx.svgClean document alt with
    | some document' =>
      let hash := ctx.hashStr source % 65536
      ctx.svgWrite (prefixIds hash (svgDrain document'))
    | none => source
  | none => source

def handle_svg_image (ctx : Ctx) (path : String) (alt : String)
    (event : Event) (buffer : List Event) : Event × List Event :=
  match ctx.readFile path with
  | .error _ => (event, buffer)
  | .ok source =>
    let cleaned := svg_cleaned ctx source alt
    (Event.Html "<figure>",
     Event.Html cleaned :: Event.Html "<figcaption>" ::
       (buffer.dropLast ++ [Event.Html "</figcaption></figure>"]))

def handle_raster_image (ctx : Ctx) (path : String) (alt : String)
    (event : Event) (buffer : List Event) (assets : Assets) :
    Event × List Event × Assets :=
  match ctx.imageOpen path with
  | .error _ => (event, buffer, assets)
  | .ok im =>
    match ctx.webpEncode im with
    | .error _ => (event, buffer, assets)
    | .ok bytes =>
      let r := store_asset ctx.hashBytes assets bytes "webp"
      let url := "/" ++ r.1
      (Event.Html "<figure>",
       Event.Html ("<img src=\"" ++ url ++ "\" alt=\"" ++ alt ++ "\">") ::
         Event.Html "<figcaption>" ::
         (buffer.dropLast ++ [Event.Html "</figcaption></figure>"]),
       r.2)

/-! ### `CodeImageProcessor::accumulate_plain_text`

The source pulls upstream tokens one at a time, pushing each onto
`self.buffer` before inspecting it, and either finishes at the end
marker (returning the accumulated text), continues on `Text` /
`InlineMath`, or aborts returning `None`.  Here the function returns
`(result, pulled, remaining)` where `pulled` is the list of tokens pushed
onto the buffer, in pull order, and `remaining` is the rest of the
upstream stream. -/

def accumulate_plain_text (tag : TagEnd) (text : String) :
    List Event → Option String × List Event × List Event
  | [] => (none, [], [])
  | ev :: rest =>
    if matchesEnd ev tag then (some text, [ev], rest)
    else
      match ev with
      | .InlineMath m =>
        let r := accumulate_plain_text tag (text ++ "$" ++ m ++ "$") rest
        (r.1, ev :: r.2.1, r.2.2)
      | .Text t =>
        let r := accumulate_plain_text tag (text ++ t) rest
        (r.1, ev :: r.2.1, r.2.2)
      | _ => (none, [ev], rest)

def accumulate_append (tag : TagEnd) (text : String) (up : List Event) :
    (accumulate_plain_text tag text up).2.1 ++ (accumulate_plain_text tag text up).2.2 = up := by
  induction up generalizing text with
  | nil => simp [accumulate_plain_text]
  | cons ev rest ih =>
    simp only [accumulate_plain_text]
    by_cases h : matchesEnd ev tag
    · simp [h]
    · cases ev <;> simp [h, ih]

def accumulate_some_ne_nil (tag : TagEnd) (text : String) (up : List Event)
    {s : String} (h : (accumulate_plain_text tag text up).1 = some s) :
    (accumulate_plain_text tag text up).2.1 ≠ [] := by
  induction up generalizing text with
  | nil => simp [accumulate_plain_text] at h
  | cons ev rest ih =>
    simp only [accumulate_plain_text] at h ⊢
    by_cases he : matchesEnd ev tag
    · simp [he]
    · cases ev <;> simp [he] at h ⊢

/-! ### `CodeImageProcessor` state and `next`

The state visible to the processor: its buffer of
already-pulled-but-not-yet-emitted tokens (`self.buffer`), the enclosing
post's metadata slot (`self.post.meta`) and the site-wide asset store
(`self.post.site.assets`).  One call of `Iterator::next` maps a state
and the remaining upstream stream to an emitted token (`none` = stream
end), a new state, and the remaining upstream stream. -/

structure CIState where
  buffer : List Event
  meta : Option PostMeta
  assets : Assets
deriving DecidableEq, Repr

/-- Method `CodeImageProcessor::next` (one pull). -/
def ciNext (ctx : Ctx) (s : CIState) (up : List Event) :
    Option Event × CIState × List Event :=
  match s.buffer with
  | e :: brest => (some e, { s with buffer := brest }, up)
  | [] =>
    match up with
    | [] => (none, s, [])
    | event :: up =>
      match event with
      | .StartCodeBlock language =>
        match accumulate_plain_text .CodeBlock "" up with
        | (some source, pulled, up') =>
          match ctx.highlight language source.trimRight with
          | .ok html =>
            let html := "<a-lf></a-lf>" ++ html.replace "\n" "\n<a-lf></a-lf>"
            (some event, { s with buffer := [.Html html, .EndCodeBlock] }, up')
          | .error _ => (some event, { s with buffer := pulled }, up')
        | (none, pulled, up') => (some event, { s with buffer := pulled }, up')
      | .StartImage destUrl =>
        match accumulate_plain_text .Image "" up with
        | (some alt, pulled, up') =>
          match ctx.parseUrl destUrl with
          | .error .RelativeUrlWithoutBase =>
            match ctx.resolveFile destUrl with
            | some path =>
              if ctx.isSvgPath path then
                let r := handle_svg_image ctx path alt event pulled
                (some r.1, { s with buffer := r.2 }, up')
              else
                let r := handle_raster_image ctx path alt event pulled s.assets
                (some r.1, { s with buffer := r.2.1, assets := r.2.2 }, up')
            | none => (some event, { s with buffer := pulled }, up')
          | _ => (some event, { s with buffer := pulled }, up')
        | (none, pulled, up') => (some event, { s with buffer := pulled }, up')
      | .StartMetadataBlock =>
        match accumulate_plain_text .MetadataBlock "" up with
        | (some source, pulled, up') =>
          match ctx.parseMeta source with
          | .ok mr =>
            let meta : PostMeta :=
              { title := mr.title.getD ctx.defaultTitle,
                date := mr.date.getD ctx.defaultDate,
                tags := mr.tags.getD [],
                ghcomment := optZip mr.ghcommentid mr.ghcommentauthors }
            match up' with
            | [] => (none, { s with meta := some meta, buffer := [] }, [])
            | t :: up'' => (some t, { s with meta := some meta, buffer := [] }, up'')
          | .error _ => (some event, { s with buffer := pulled }, up')
        | (none, pulled, up') => (some event, { s with buffer := pulled }, up')
      | _ => (some event, s, up)

/-! ### Termination of the pull loop -/

def handle_svg_len (ctx : Ctx) (path alt : String) (event : Event)
    (buffer : List Event) (hb : buffer ≠ []) :
    (handle_svg_image ctx path alt event buffer).2.length ≤ buffer.length + 2 := by
  unfold handle_svg_image
  split
  · simp
  · have : 0 < buffer.length := List.length_pos.mpr hb
    simp [List.length_dropLast]
    omega

def handle_raster_len (ctx : Ctx) (path alt : String) (event : Event)
    (buffer : List Event) (assets : Assets) (hb : buffer ≠ []) :
    (handle_raster_image ctx path alt event buffer assets).2.1.length ≤ buffer.length + 2 := by
  unfold handle_raster_image
  split
  · simp
  · split
    · simp
    · have : 0 < buffer.length := List.length_pos.mpr hb
      simp [List.length_dropLast]
      omega

/-- Every emitting call of `ciNext` strictly decreases the measure
`buffer.length + 2 * upstream.length`: the pull loop terminates. -/
def ciNext_measure (ctx : Ctx) (s : CIState) (up : List Event)
    (e : Event) (s' : CIState) (up' : List Event)
    (h : ciNext ctx s up = (some e, s', up')) :
    s'.buffer.length + 2 * up'.length < s.buffer.length + 2 * up.length := by
  obtain ⟨buf, m, a⟩ := s
  cases buf with
  | cons b bs =>
    simp only [ciNext, Prod.mk.injEq, Option.some.injEq] at h
    obtain ⟨rfl, rfl, rfl⟩ := h
    simp
  | nil =>
    cases up with
    | nil => simp [ciNext] at h
    | cons event rest =>
      have hsplit := accumulate_append TagEnd.CodeBlock "" rest
      have hsplitI := accumulate_append TagEnd.Image "" rest
      have hsplitM := accumulate_append TagEnd.MetadataBlock "" rest
      cases event <;>
        simp only [ciNext, Prod.mk.injEq, Option.some.injEq] at h
      case Text s0 | InlineMath s0 | DisplayMath s0 | Html s0 | Other s0 =>
        obtain ⟨rfl, rfl, rfl⟩ := h
        simp
      case EndCodeBlock | EndImage | EndMetadataBlock =>
        obtain ⟨rfl, rfl, rfl⟩ := h
        simp
      case StartCodeBlock language =>
        rcases hacc : accumulate_plain_text .CodeBlock "" rest with ⟨res, pulled, up1⟩
        rw [hacc] at h hsplit
        have hlen : pulled.length + up1.length = rest.length := by
          have := congrArg List.length hsplit
          simpa using this
        cases res with
        | none =>
          simp only [Prod.mk.injEq, Option.some.injEq] at h
          obtain ⟨rfl, rfl, rfl⟩ := h
          simp; omega
        | some source =>
          have hne : pulled ≠ [] := by
            have := accumulate_some_ne_nil TagEnd.CodeBlock "" rest (s := source) (by rw [hacc])
            rwa [hacc] at this
          have hposp : 0 < pulled.length := List.length_pos.mpr hne
          rcases hh : ctx.highlight language source.trimRight with msg | html <;>
            simp only [hh, Prod.mk.injEq, Option.some.injEq] at h <;>
            obtain ⟨rfl, rfl, rfl⟩ := h <;> simp <;> omega
      case StartMetadataBlock =>
        rcases hacc : accumulate_plain_text .MetadataBlock "" rest with ⟨res, pulled, up1⟩
        rw [hacc] at h hsplitM
        have hlen : pulled.length + up1.length = rest.length := by
          have := congrArg List.length hsplitM
          simpa using this
        cases res with
        | none =>
          simp only [Prod.mk.injEq, Option.some.injEq] at h
          obtain ⟨rfl, rfl, rfl⟩ := h
          simp; omega
        | some source =>
          have hne : pulled ≠ [] := by
            have := accumulate_some_ne_nil TagEnd.MetadataBlock "" rest (s := source) (by rw [hacc])
            rwa [hacc] at this
          have hposp : 0 < pulled.length := List.length_pos.mpr hne
          rcases hp : ctx.parseMeta source with msg | mr
          · simp only [hp, Prod.mk.injEq, Option.some.injEq] at h
            obtain ⟨rfl, rfl, rfl⟩ := h
            simp; omega
          · cases up1 with
            | nil => simp [hp] at h
            | cons t up2 =>
              simp only [hp, Prod.mk.injEq, Option.some.injEq] at h
              obtain ⟨rfl, rfl, rfl⟩ := h
              simp at hlen ⊢
              omega
      case StartImage destUrl =>
        rcases hacc : accumulate_plain_text .Image "" rest with ⟨res, pulled, up1⟩
        rw [hacc] at h hsplitI
        have hlen : pulled.length + up1.length = rest.length := by
          have := congrArg List.length hsplitI
          simpa using this
        cases res with
        | none =>
          simp only [Prod.mk.injEq, Option.some.injEq] at h
          obtain ⟨rfl, rfl, rfl⟩ := h
          simp; omega
        | some alt =>
          have hne : pulled ≠ [] := by
            have := accumulate_some_ne_nil TagEnd.Image "" rest (s := alt) (by rw [hacc])
            rwa [hacc] at this
          have hposp : 0 < pulled.length := List.length_pos.mpr hne
          rcases hu : ctx.parseUrl destUrl with err | uval
          · cases err with
            | RelativeUrlWithoutBase =>
              simp only [hu] at h
              rcases hr : ctx.resolveFile destUrl with - | path <;>
                simp only [hr, Prod.mk.injEq, Option.some.injEq] at h
              · obtain ⟨rfl, rfl, rfl⟩ := h
                simp; omega
              · split at h
                · simp only [Prod.mk.injEq, Option.some.injEq] at h
                  obtain ⟨rfl, rfl, rfl⟩ := h
                  have := handle_svg_len ctx path alt (.StartImage destUrl) pulled hne
                  simp
                  omega
                · simp only [Prod.mk.injEq, Option.some.injEq] at h
                  obtain ⟨rfl, rfl, rfl⟩ := h
                  have := handle_raster_len ctx path alt (.StartImage destUrl) pulled a hne
                  simp
                  omega
            | OtherError msg =>
              simp only [hu, Prod.mk.injEq, Option.some.injEq] at h
              obtain ⟨rfl, rfl, rfl⟩ := h
              simp; omega
          · simp only [hu, Prod.mk.injEq, Option.some.injEq] at h
            obtain ⟨rfl, rfl, rfl⟩ := h
            simp; omega

/-- The full run of `CodeImageProcessor` viewed as an iterator: the list
of all tokens emitted by successive `next` calls until `None`, together
with the final state.  (`cmark::html::push_html` drives the iterator to
exhaustion.) -/
def ciRun (ctx : Ctx) (s : CIState) (up : List Event) : List Event × CIState :=
  match h : ciNext ctx s up with
  | (none, s', _) => ([], s')
  | (some e, s', up') =>
    have : s'.buffer.length + 2 * up'.length < s.buffer.length + 2 * up.length :=
      ciNext_measure ctx s up e s' up' h
    let r := ciRun ctx s' up'
    (e :: r.1, r.2)
termination_by s.buffer.length + 2 * up.length

/-! ### `MathProcessor::next`, iterated over a stream

On a math token the source renders the math (`latex::Parser`,
`latex::push_mathml`, display mode chosen by the token kind); on success
it emits one `Html` token; on any parse/render error it returns
`self.iter.next()` directly — the following upstream token (if any) is
emitted as is, and when the upstream is exhausted the stream ends.
Every other token passes through unchanged.  The rendering engine is
abstracted as `render : Bool → String → Except String String` where the
first argument is `true` for display (block) mode. -/

def mathRun (render : Bool → String → Except String String) :
    List Event → List Event
  | [] => []
  | .DisplayMath m :: rest =>
    (match render true m with
     | .ok buffer => Event.Html buffer :: mathRun render rest
     | .error _ =>
       match rest with
       | [] => []
       | t :: rest' => t :: mathRun render rest')
  | .InlineMath m :: rest =>
    (match render false m with
     | .ok buffer => Event.Html buffer :: mathRun render rest
     | .error _ =>
       match rest with
       | [] => []
       | t :: rest' => t :: mathRun render rest')
  | ev :: rest => ev :: mathRun render rest
termination_by structural l => l

/-- Tokens that do not trigger any branch of `CodeImageProcessor::next`
(everything except the three start markers). -/
def nonTrigger (ev : Event) : Bool :=
  match ev with
  | .StartCodeBlock _ => false
  | .StartImage _ => false
  | .StartMetadataBlock => false
  | _ => true

/-- Tokens that are not inline or display math. -/
def nonMathTok (ev : Event) : Bool :=
  match ev with
  | .DisplayMath _ => false
  | .InlineMath _ => false
  | _ => true

/-- The metadata produced on a successful metadata parse (missing fields
filled as in `CodeImageProcessor::next`). -/
def builtMeta (ctx : Ctx) (mr : PostMetaIncomplete) : PostMeta :=
  { title := mr.title.getD ctx.defaultTitle,
    date := mr.date.getD ctx.defaultDate,
    tags := mr.tags.getD [],
    ghcomment := optZip mr.ghcommentid mr.ghcommentauthors }

/-! ### Statements of spec sentences as functions (for comparison with the code) -/

/-- Variant of `svg_cleaned` as the spec sentence describes it: "compute a 16-bit
hash of the *cleaned* source" — the hash taken over the serialization of
the cleaned document instead of over the original file contents.  Only
the hashed string differs from `svg_cleaned`. -/
def svg_cleaned_claim (ctx : Ctx) (source : String) (alt : String) : String :=
  match ctx.svgParse source with
  | some document =>
    match ctx.svgClean document alt with
    | some document' =>
      let hash := ctx.hashStr (ctx.svgWrite (svgDrain document')) % 65536
      ctx.svgWrite (prefixIds hash (svgDrain document'))
    | none => source
  | none => source

/-- Variant of `handle_svg_image` with the hash taken as the spec sentence reads. -/
def handle_svg_image_claim (ctx : Ctx) (path : String) (alt : String)
    (event : Event) (buffer : List Event) : Event × List Event :=
  match ctx.readFile path with
  | .error _ => (event, buffer)
  | .ok source =>
    let cleaned := svg_cleaned_claim ctx source alt
    (Event.Html "<figure>",
     Event.Html cleaned :: Event.Html "<figcaption>" ::
       (buffer.dropLast ++ [Event.Html "</figcaption></figure>"]))

/-- The math stage as claim C4 describes it: every math token is either
replaced by exactly one markup token or dropped entirely, and every
other token passes through unchanged (a per-token map, no interaction
between neighbouring tokens). -/
def mathRun_claim (render : Bool → String → Except String String) :
    List Event → List Event
  | [] => []
  | ev :: rest =>
    (match ev with
     | .DisplayMath m =>
       match render true m with
       | .ok buffer => [Event.Html buffer]
       | .error _ => []
     | .InlineMath m =>
       match render false m with
       | .ok buffer => [Event.Html buffer]
       | .error _ => []
     | e => [e]) ++ mathRun_claim render rest

/-- The continuation of the run once an image reference has been
classified as local (`Err(RelativeUrlWithoutBase)`): resolution against
the document's directory is attempted, and only then does an image
handler run.  Used to state claim C7. -/
def imageLocalRun (ctx : Ctx) (m : Option PostMeta) (a : Assets)
    (url : String) (content rest : List Event) : List Event × CIState :=
  match ctx.resolveFile url with
  | none =>
    (.StartImage url :: content ++ .EndImage :: (ciRun ctx ⟨[], m, a⟩ rest).1,
     (ciRun ctx ⟨[], m, a⟩ rest).2)
  | some path =>
    if ctx.isSvgPath path then
      let r := handle_svg_image ctx path (accText content) (.StartImage url)
        (content ++ [.EndImage])
      (r.1 :: r.2 ++ (ciRun ctx ⟨[], m, a⟩ rest).1, (ciRun ctx ⟨[], m, a⟩ rest).2)
    else
      let r := handle_raster_image ctx path (accText content) (.StartImage url)
        (content ++ [.EndImage]) a
      (r.1 :: r.2.1 ++ (ciRun ctx ⟨[], m, r.2.2⟩ rest).1,
       (ciRun ctx ⟨[], m, r.2.2⟩ rest).2)

/-! ### Concrete instances for counterexamples and witnesses -/

/-- A rendering engine for concrete runs: renders `x`, rejects
everything else. -/
def cRender : Bool → String → Except String String :=
  fun _ s => if s = "x" then .ok "X" else .error "parse error"

/-- A base context whose external calls all take the failure/none paths. -/
def baseCtx : Ctx where
  highlight := fun language _ => .error (.UnsupportedLanguage language)
  parseMeta := fun _ => .error "unparsed"
  defaultTitle := "default-title"
  defaultDate := "1970-01-01T00:00:00Z"
  parseUrl := fun _ => .ok ()
  resolveFile := fun _ => none
  isSvgPath := fun _ => false
  readFile := fun _ => .error "no file"
  svgParse := fun _ => none
  svgClean := fun _ _ => none
  svgWrite := fun _ => ""
  hashStr := String.length
  imageOpen := fun _ => .error "no image"
  webpEncode := fun _ => .error "no encoder"
  hashBytes := List.length

/-- An svg document with a single element carrying id `a`. -/
def svgDoc1 : SvgDoc := ⟨[⟨NodeType.Element, some "a"⟩]⟩

/-- Context for the svg-hash counterexample: the file reads as `AA`,
parses to `svgDoc1`, cleaning succeeds without changing the document,
serialization concatenates the element ids, and the hash is the string
length — so the original source (`AA`) hashes to 2 while the cleaned
serialization (`a`) hashes to 1. -/
def cctx1 : Ctx :=
  { baseCtx with
    readFile := fun _ => .ok "AA",
    svgParse := fun s => if s = "AA" then some svgDoc1 else none,
    svgClean := fun d _ => some d,
    svgWrite := fun d => String.join (d.nodes.map fun n => n.id.getD "") }

/-- Context for the image-embedding runs: every image url is relative,
`u` resolves to an svg file (whose source `S` does not parse, so it is
inlined raw), `v` resolves to a raster file that decodes and encodes to
the byte `[7]`. -/
def cctx6 : Ctx :=
  { baseCtx with
    parseUrl := fun _ => .error .RelativeUrlWithoutBase,
    resolveFile := fun u => if u = "u" then some "f.svg" else some "f.png",
    isSvgPath := fun p => p = "f.svg",
    readFile := fun _ => .ok "S",
    imageOpen := fun _ => .ok 0,
    webpEncode := fun _ => .ok [7] }

/-- A parsed metadata record with every field supplied. -/
def mr0 : PostMetaIncomplete :=
  ⟨some "T", some "2024-01-02T03:04:05Z", some ["x", "y"], some 5, some ["au"]⟩

/-- Context whose metadata parser always succeeds with `mr0`. -/
def wctxMeta : Ctx := { baseCtx with parseMeta := fun _ => .ok mr0 }

/-! ### Hexadecimal formatting lemmas -/

theorem hexVal_hexDigit {n : Nat} (h : n < 16) : hexVal (hexDigit n) = n := by
  interval_cases n <;> decide

theorem hexDigit_inj {a b : Nat} (ha : a < 16) (hb : b < 16)
    (h : hexDigit a = hexDigit b) : a = b := by
  have := congrArg hexVal h
  rwa [hexVal_hexDigit ha, hexVal_hexDigit hb] at this

theorem isHexChar_hexDigit {n : Nat} (h : n < 16) : isHexChar (hexDigit n) = true := by
  interval_cases n <;> decide

theorem hex4_inj {a b : Nat} (ha : a < 65536) (hb : b < 65536)
    (h : hex4 a = hex4 b) : a = b := by
  have hd := congrArg String.data h
  simp only [hex4, List.cons.injEq, and_true] at hd
  obtain ⟨h3, h2, h1, h0⟩ := hd
  have e3 := hexDigit_inj (Nat.mod_lt _ (by norm_num)) (Nat.mod_lt _ (by norm_num)) h3
  have e2 := hexDigit_inj (Nat.mod_lt _ (by norm_num)) (Nat.mod_lt _ (by norm_num)) h2
  have e1 := hexDigit_inj (Nat.mod_lt _ (by norm_num)) (Nat.mod_lt _ (by norm_num)) h1
  have e0 := hexDigit_inj (Nat.mod_lt _ (by norm_num)) (Nat.mod_lt _ (by norm_num)) h0
  omega

theorem hex4_length (h : Nat) : (hex4 h).length = 4 := rfl

theorem hex16_length (h : Nat) : (hex16 h).length = 16 := by
  simp [hex16, String.length]

theorem hex16_chars (h : Nat) : ∀ c ∈ (hex16 h).data, isHexChar c = true := by
  intro c hc
  simp only [hex16, List.mem_map] at hc
  obtain ⟨k, -, rfl⟩ := hc
  exact isHexChar_hexDigit (Nat.mod_lt _ (by norm_num))

/-! ### Run-level lemmas -/

theorem ciRun_eq_none (ctx : Ctx) (s : CIState) (up : List Event) (s' : CIState)
    (up' : List Event) (h : ciNext ctx s up = (none, s', up')) :
    ciRun ctx s up = ([], s') := by
  rw [ciRun.eq_def]
  split
  · rename_i s1 u1 heq
    rw [h] at heq
    cases heq
    rfl
  · rename_i e1 s1 u1 heq
    rw [h] at heq
    cases heq

theorem ciRun_eq_some (ctx : Ctx) (s : CIState) (up : List Event) (e : Event)
    (s' : CIState) (up' : List Event) (h : ciNext ctx s up = (some e, s', up')) :
    ciRun ctx s up = (e :: (ciRun ctx s' up').1, (ciRun ctx s' up').2) := by
  rw [ciRun.eq_def]
  split
  · rename_i s1 u1 heq
    rw [h] at heq
    cases heq
  · rename_i e1 s1 u1 heq
    rw [h] at heq
    cases heq
    rfl

theorem ciRun_nil (ctx : Ctx) (m : Option PostMeta) (a : Assets) :
    ciRun ctx ⟨[], m, a⟩ [] = ([], ⟨[], m, a⟩) :=
  ciRun_eq_none ctx ⟨[], m, a⟩ [] ⟨[], m, a⟩ [] rfl

/-- A non-empty buffer is drained, in order, before any upstream pull:
the run with buffer `buf` emits `buf` first and then behaves as the run
with an empty buffer. -/
theorem ciRun_drain (ctx : Ctx) (buf : List Event) (m : Option PostMeta)
    (a : Assets) (up : List Event) :
    ciRun ctx ⟨buf, m, a⟩ up
      = (buf ++ (ciRun ctx ⟨[], m, a⟩ up).1, (ciRun ctx ⟨[], m, a⟩ up).2) := by
  induction buf with
  | nil => simp
  | cons b bs ih =>
    rw [ciRun_eq_some ctx ⟨b :: bs, m, a⟩ up b ⟨bs, m, a⟩ up rfl, ih]
    simp

/-- Successful accumulation: a run of text/inline-math tokens followed by
the end marker yields the concatenated text, with all pulled tokens (end
marker included) in the buffer, in pull order. -/
theorem accumulate_success (tag : TagEnd) (text : String) (content : List Event)
    (endEv : Event) (rest : List Event)
    (hc : ∀ e ∈ content, isAccTok e = true) (he : matchesEnd endEv tag = true) :
    accumulate_plain_text tag text (content ++ endEv :: rest)
      = (some (text ++ accText content), content ++ [endEv], rest) := by
  induction content generalizing text with
  | nil => simp [accumulate_plain_text, he, accText]
  | cons e content' ih =>
    have hce : isAccTok e = true := hc e (by simp)
    have hc' : ∀ x ∈ content', isAccTok x = true := fun x hx => hc x (by simp [hx])
    cases e <;> simp [isAccTok, accTok] at hce <;>
      simp [accumulate_plain_text, matchesEnd, ih _ hc', accText, accTok,
        String.append_assoc]

/-- Accumulation when the upstream ends before the end marker: failure,
with every pulled token retained in the buffer. -/
theorem accumulate_exhaust (tag : TagEnd) (text : String) (content : List Event)
    (hc : ∀ e ∈ content, isAccTok e = true) :
    accumulate_plain_text tag text content = (none, content, []) := by
  induction content generalizing text with
  | nil => simp [accumulate_plain_text]
  | cons e content' ih =>
    have hce : isAccTok e = true := hc e (by simp)
    have hc' : ∀ x ∈ content', isAccTok x = true := fun x hx => hc x (by simp [hx])
    cases e <;> simp [isAccTok, accTok] at hce <;>
      simp [accumulate_plain_text, matchesEnd, ih _ hc']

/-- Aborted accumulation: the first token that is neither text, inline
math, nor the end marker stops the pull loop; the accumulator is
discarded and the buffer holds every pulled token, offender included,
in pull order. -/
theorem accumulate_abort (tag : TagEnd) (text : String) (good : List Event)
    (bad : Event) (rest : List Event)
    (hg : ∀ e ∈ good, isAccTok e = true)
    (hb : isAccTok bad = false) (hbe : matchesEnd bad tag = false) :
    accumulate_plain_text tag text (good ++ bad :: rest)
      = (none, good ++ [bad], rest) := by
  induction good generalizing text with
  | nil =>
    cases bad <;> simp [isAccTok, accTok] at hb <;>
      simp [accumulate_plain_text, hbe]
  | cons e good' ih =>
    have hce : isAccTok e = true := hg e (by simp)
    have hg' : ∀ x ∈ good', isAccTok x = true := fun x hx => hg x (by simp [hx])
    cases e <;> simp [isAccTok, accTok] at hce <;>
      simp [accumulate_plain_text, matchesEnd, ih _ hg']

theorem ciNext_nonTrigger (ctx : Ctx) (m : Option PostMeta) (a : Assets)
    (e : Event) (up : List Event) (he : nonTrigger e = true) :
    ciNext ctx ⟨[], m, a⟩ (e :: up) = (some e, ⟨[], m, a⟩, up) := by
  cases e <;> simp [nonTrigger] at he <;> rfl

/-- Non-trigger tokens pass through unchanged, one by one. -/
theorem ciRun_passthrough (ctx : Ctx) (m : Option PostMeta) (a : Assets)
    (l : List Event) (up : List Event) (hl : ∀ e ∈ l, nonTrigger e = true) :
    ciRun ctx ⟨[], m, a⟩ (l ++ up)
      = (l ++ (ciRun ctx ⟨[], m, a⟩ up).1, (ciRun ctx ⟨[], m, a⟩ up).2) := by
  induction l with
  | nil => simp
  | cons e l' ih =>
    have he : nonTrigger e = true := hl e (by simp)
    have hl' : ∀ x ∈ l', nonTrigger x = true := fun x hx => hl x (by simp [hx])
    rw [List.cons_append,
      ciRun_eq_some ctx ⟨[], m, a⟩ (e :: (l' ++ up)) e ⟨[], m, a⟩ (l' ++ up)
        (ciNext_nonTrigger ctx m a e (l' ++ up) he),
      ih hl']
    simp

/-! ### Branch lemmas for `ciNext` -/

theorem ciNext_code_ok (ctx : Ctx) (m : Option PostMeta) (a : Assets)
    (lang : String) (content rest : List Event) (html : String)
    (hc : ∀ e ∈ content, isAccTok e = true)
    (hh : ctx.highlight lang (accText content).trimRight = .ok html) :
    ciNext ctx ⟨[], m, a⟩ (.StartCodeBlock lang :: (content ++ .EndCodeBlock :: rest))
      = (some (.StartCodeBlock lang),
         ⟨[.Html ("<a-lf></a-lf>" ++ html.replace "\n" "\n<a-lf></a-lf>"),
           .EndCodeBlock], m, a⟩, rest) := by
  simp only [ciNext, accumulate_success .CodeBlock "" content .EndCodeBlock rest hc rfl,
    String.empty_append, hh]

theorem ciNext_code_err (ctx : Ctx) (m : Option PostMeta) (a : Assets)
    (lang : String) (content rest : List Event) (err : HlError)
    (hc : ∀ e ∈ content, isAccTok e = true)
    (hh : ctx.highlight lang (accText content).trimRight = .error err) :
    ciNext ctx ⟨[], m, a⟩ (.StartCodeBlock lang :: (content ++ .EndCodeBlock :: rest))
      = (some (.StartCodeBlock lang), ⟨content ++ [.EndCodeBlock], m, a⟩, rest) := by
  simp only [ciNext, accumulate_success .CodeBlock "" content .EndCodeBlock rest hc rfl,
    String.empty_append, hh]

theorem ciNext_meta_ok (ctx : Ctx) (m : Option PostMeta) (a : Assets)
    (content rest : List Event) (mr : PostMetaIncomplete)
    (hc : ∀ e ∈ content, isAccTok e = true)
    (hp : ctx.parseMeta (accText content) = .ok mr) :
    ciNext ctx ⟨[], m, a⟩ (.StartMetadataBlock :: (content ++ .EndMetadataBlock :: rest))
      = (match rest with
         | [] => (none, ⟨[], some (builtMeta ctx mr), a⟩, [])
         | t :: rest' => (some t, ⟨[], some (builtMeta ctx mr), a⟩, rest')) := by
  simp only [ciNext,
    accumulate_success .MetadataBlock "" content .EndMetadataBlock rest hc rfl,
    String.empty_append, hp]
  cases rest <;> rfl

theorem ciNext_meta_err (ctx : Ctx) (m : Option PostMeta) (a : Assets)
    (content rest : List Event) (msg : String)
    (hc : ∀ e ∈ content, isAccTok e = true)
    (hp : ctx.parseMeta (accText content) = .error msg) :
    ciNext ctx ⟨[], m, a⟩ (.StartMetadataBlock :: (content ++ .EndMetadataBlock :: rest))
      = (some .StartMetadataBlock, ⟨content ++ [.EndMetadataBlock], m, a⟩, rest) := by
  simp only [ciNext,
    accumulate_success .MetadataBlock "" content .EndMetadataBlock rest hc rfl,
    String.empty_append, hp]

theorem ciNext_image_ok (ctx : Ctx) (m : Option PostMeta) (a : Assets)
    (url : String) (content rest : List Event) (u : Unit)
    (hc : ∀ e ∈ content, isAccTok e = true)
    (hu : ctx.parseUrl url = .ok u) :
    ciNext ctx ⟨[], m, a⟩ (.StartImage url :: (content ++ .EndImage :: rest))
      = (some (.StartImage url), ⟨content ++ [.EndImage], m, a⟩, rest) := by
  simp only [ciNext, accumulate_success .Image "" content .EndImage rest hc rfl,
    String.empty_append, hu]

theorem ciNext_image_errother (ctx : Ctx) (m : Option PostMeta) (a : Assets)
    (url msg : String) (content rest : List Event)
    (hc : ∀ e ∈ content, isAccTok e = true)
    (hu : ctx.parseUrl url = .error (.OtherError msg)) :
    ciNext ctx ⟨[], m, a⟩ (.StartImage url :: (content ++ .EndImage :: rest))
      = (some (.StartImage url), ⟨content ++ [.EndImage], m, a⟩, rest) := by
  simp only [ciNext, accumulate_success .Image "" content .EndImage rest hc rfl,
    String.empty_append, hu]

theorem ciNext_image_noresolve (ctx : Ctx) (m : Option PostMeta) (a : Assets)
    (url : String) (content rest : List Event)
    (hc : ∀ e ∈ content, isAccTok e = true)
    (hu : ctx.parseUrl url = .error .RelativeUrlWithoutBase)
    (hr : ctx.resolveFile url = none) :
    ciNext ctx ⟨[], m, a⟩ (.StartImage url :: (content ++ .EndImage :: rest))
      = (some (.StartImage url), ⟨content ++ [.EndImage], m, a⟩, rest) := by
  simp only [ciNext, accumulate_success .Image "" content .EndImage rest hc rfl,
    String.empty_append, hu, hr]

theorem ciNext_image_svg (ctx : Ctx) (m : Option PostMeta) (a : Assets)
    (url path : String) (content rest : List Event)
    (hc : ∀ e ∈ content, isAccTok e = true)
    (hu : ctx.parseUrl url = .error .RelativeUrlWithoutBase)
    (hr : ctx.resolveFile url = some path)
    (hs : ctx.isSvgPath path = true) :
    ciNext ctx ⟨[], m, a⟩ (.StartImage url :: (content ++ .EndImage :: rest))
      = (some (handle_svg_image ctx path (accText content) (.StartImage url)
                 (content ++ [.EndImage])).1,
         ⟨(handle_svg_image ctx path (accText content) (.StartImage url)
             (content ++ [.EndImage])).2, m, a⟩, rest) := by
  simp only [ciNext, accumulate_success .Image "" content .EndImage rest hc rfl,
    String.empty_append, hu, hr, hs, if_true]

theorem ciNext_image_raster (ctx : Ctx) (m : Option PostMeta) (a : Assets)
    (url path : String) (content rest : List Event)
    (hc : ∀ e ∈ content, isAccTok e = true)
    (hu : ctx.parseUrl url = .error .RelativeUrlWithoutBase)
    (hr : ctx.resolveFile url = some path)
    (hs : ctx.isSvgPath path = false) :
    ciNext ctx ⟨[], m, a⟩ (.StartImage url :: (content ++ .EndImage :: rest))
      = (some (handle_raster_image ctx path (accText content) (.StartImage url)
                 (content ++ [.EndImage]) a).1,
         ⟨(handle_raster_image ctx path (accText content) (.StartImage url)
             (content ++ [.EndImage]) a).2.1, m,
          (handle_raster_image ctx path (accText content) (.StartImage url)
             (content ++ [.EndImage]) a).2.2⟩, rest) := by
  simp only [ciNext, accumulate_success .Image "" content .EndImage rest hc rfl,
    String.empty_append, hu, hr, hs, Bool.false_eq_true, if_false]

theorem ciNext_code_abort (ctx : Ctx) (m : Option PostMeta) (a : Assets)
    (lang : String) (good : List Event) (bad : Event) (rest : List Event)
    (hg : ∀ e ∈ good, isAccTok e = true)
    (hb : isAccTok bad = false) (hbe : matchesEnd bad .CodeBlock = false) :
    ciNext ctx ⟨[], m, a⟩ (.StartCodeBlock lang :: (good ++ bad :: rest))
      = (some (.StartCodeBlock lang), ⟨good ++ [bad], m, a⟩, rest) := by
  simp only [ciNext, accumulate_abort .CodeBlock "" good bad rest hg hb hbe]

theorem ciNext_image_abort (ctx : Ctx) (m : Option PostMeta) (a : Assets)
    (url : String) (good : List Event) (bad : Event) (rest : List Event)
    (hg : ∀ e ∈ good, isAccTok e = true)
    (hb : isAccTok bad = false) (hbe : matchesEnd bad .Image = false) :
    ciNext ctx ⟨[], m, a⟩ (.StartImage url :: (good ++ bad :: rest))
      = (some (.StartImage url), ⟨good ++ [bad], m, a⟩, rest) := by
  simp only [ciNext, accumulate_abort .Image "" good bad rest hg hb hbe]

theorem ciNext_meta_abort (ctx : Ctx) (m : Option PostMeta) (a : Assets)
    (good : List Event) (bad : Event) (rest : List Event)
    (hg : ∀ e ∈ good, isAccTok e = true)
    (hb : isAccTok bad = false) (hbe : matchesEnd bad .MetadataBlock = false) :
    ciNext ctx ⟨[], m, a⟩ (.StartMetadataBlock :: (good ++ bad :: rest))
      = (some .StartMetadataBlock, ⟨good ++ [bad], m, a⟩, rest) := by
  simp only [ciNext, accumulate_abort .MetadataBlock "" good bad rest hg hb hbe]

theorem ciNext_code_exhaust (ctx : Ctx) (m : Option PostMeta) (a : Assets)
    (lang : String) (good : List Event)
    (hg : ∀ e ∈ good, isAccTok e = true) :
    ciNext ctx ⟨[], m, a⟩ (.StartCodeBlock lang :: good)
      = (some (.StartCodeBlock lang), ⟨good, m, a⟩, []) := by
  simp only [ciNext, accumulate_exhaust .CodeBlock "" good hg]

theorem ciNext_image_exhaust (ctx : Ctx) (m : Option PostMeta) (a : Assets)
    (url : String) (good : List Event)
    (hg : ∀ e ∈ good, isAccTok e = true) :
    ciNext ctx ⟨[], m, a⟩ (.StartImage url :: good)
      = (some (.StartImage url), ⟨good, m, a⟩, []) := by
  simp only [ciNext, accumulate_exhaust .Image "" good hg]

theorem ciNext_meta_exhaust (ctx : Ctx) (m : Option PostMeta) (a : Assets)
    (good : List Event)
    (hg : ∀ e ∈ good, isAccTok e = true) :
    ciNext ctx ⟨[], m, a⟩ (.StartMetadataBlock :: good)
      = (some .StartMetadataBlock, ⟨good, m, a⟩, []) := by
  simp only [ciNext, accumulate_exhaust .MetadataBlock "" good hg]

/-! ### Further supporting lemmas -/

theorem optZip_isSome {α β : Type} (x : Option α) (y : Option β) :
    (optZip x y).isSome = (x.isSome && y.isSome) := by
  cases x <;> cases y <;> rfl

theorem nonTrigger_of_isAccTok {e : Event} (h : isAccTok e = true) :
    nonTrigger e = true := by
  cases e <;> first | rfl | simp [isAccTok, accTok] at h

theorem hex4_prefix_ne {a b : Nat} (ha : a < 65536) (hb : b < 65536)
    (hab : a ≠ b) (i1 i2 : String) :
    hex4 a ++ "-" ++ i1 ≠ hex4 b ++ "-" ++ i2 := by
  intro h
  have hd := congrArg String.data h
  have hdash : ("-" : String).data = ['-'] := rfl
  simp only [String.data_append, hex4, hdash, List.cons_append, List.nil_append,
    List.cons.injEq] at hd
  obtain ⟨h3, h2, h1, h0, -⟩ := hd
  exact hab (hex4_inj ha hb (by simp [hex4, h3, h2, h1, h0]))

theorem elementIds_prefixIds (hh : Nat) (dd : SvgDoc) :
    elementIds (prefixIds hh dd)
      = (elementIds dd).map (fun i => hex4 hh ++ "-" ++ i) := by
  obtain ⟨nodes⟩ := dd
  induction nodes with
  | nil => rfl
  | cons n ns ih =>
    obtain ⟨nt, nid⟩ := n
    cases nt <;> cases nid <;> simpa [elementIds, prefixIds] using ih

/-! ### The claims -/

/-- Claim C2 (confirmed): for every sequence of `store_asset` calls the
first write for a given hash value determines the stored bytes and
extension; every subsequent call whose bytes hash to the same value
leaves the store unchanged and returns the same path as the first call;
no call ever clobbers an existing entry; and the returned path is the
deterministic `assets/<16-hex-digit-hash>.<stored-ext>`. -/
theorem c2_store_asset_dedup (hb : List Nat → Nat) (st st' : Assets)
    (b1 b2 b3 : List Nat) (e1 e2 e3 : String)
    (h1 : lookupAsset st (hb b1 % U64) = none)
    (h2 : hb b2 % U64 = hb b1 % U64)
    (h3 : lookupAsset st' (hb b1 % U64) = some (b1, e1)) :
    (store_asset hb st b1 e1).1 = "assets/" ++ hex16 (hb b1 % U64) ++ "." ++ e1
    ∧ lookupAsset (store_asset hb st b1 e1).2 (hb b1 % U64) = some (b1, e1)
    ∧ store_asset hb st' b2 e2 = ("assets/" ++ hex16 (hb b1 % U64) ++ "." ++ e1, st')
    ∧ lookupAsset (store_asset hb st' b3 e3).2 (hb b1 % U64) = some (b1, e1)
    ∧ (hex16 (hb b1 % U64)).length = 16
    ∧ ((hex16 (hb b1 % U64)).data.all isHexChar) = true := by
  refine ⟨?_, ?_, ?_, ?_, hex16_length _, ?_⟩
  · simp [store_asset, h1, asset_path]
  · simp [store_asset, h1, lookupAsset]
  · simp [store_asset, h2, h3, asset_path]
  · unfold store_asset
    rcases hl : lookupAsset st' (hb b3 % U64) with - | v
    · have hne : ¬ (hb b3 % U64 = hb b1 % U64) := by
        intro he
        rw [he, h3] at hl
        exact Option.noConfusion hl
      simp only [hl]
      simpa [lookupAsset, hne] using h3
    · obtain ⟨vb, ve⟩ := v
      simp only [hl]
      simpa using h3
  · rw [List.all_eq_true]
    intro c hc
    exact hex16_chars _ c hc

/-- Witness for C2 at concrete inputs (`List.length` as the hash). -/
theorem c2_store_asset_dedup_witness :
    (store_asset List.length [] [1] "webp").1
        = "assets/" ++ hex16 (List.length [1] % U64) ++ "." ++ "webp"
    ∧ lookupAsset (store_asset List.length [] [1] "webp").2 (List.length [1] % U64)
        = some ([1], "webp")
    ∧ store_asset List.length [(1, [1], "webp")] [9] "png"
        = ("assets/" ++ hex16 (List.length [1] % U64) ++ "." ++ "webp",
           [(1, [1], "webp")])
    ∧ lookupAsset (store_asset List.length [(1, [1], "webp")] [3, 4] "gif").2
        (List.length [1] % U64) = some ([1], "webp")
    ∧ (hex16 (List.length [1] % U64)).length = 16
    ∧ ((hex16 (List.length [1] % U64)).data.all isHexChar) = true :=
  c2_store_asset_dedup List.length [] [(1, [1], "webp")] [1] [9] [3, 4]
    "webp" "png" "gif" rfl rfl rfl

/-- Claim C4, counterexample: a math token immediately following a math
token whose rendering failed is emitted unrendered, so the stage is not
the per-token map the claim describes. -/
theorem c4_math_stage_counterexample :
    mathRun cRender [.InlineMath "bad", .InlineMath "x"]
      ≠ mathRun_claim cRender [.InlineMath "bad", .InlineMath "x"] := by
  decide

/-- Claim C4 (corrected): a successfully rendered math token is replaced
by exactly one markup token (display mode from the token's kind) and
non-math tokens pass through unchanged, but on a rendering error the
token is dropped *and the next upstream token (if any) is emitted as is*
— the trailing token of the stream when the failing math token is last,
otherwise the immediately following token, unprocessed even if it is
itself a math token. -/
theorem c4_math_stage (render : Bool → String → Except String String)
    (mD mI mDf mIf hD hI eD eI : String) (t ev : Event) (rest : List Event)
    (hokD : render true mD = .ok hD) (hokI : render false mI = .ok hI)
    (herrD : render true mDf = .error eD) (herrI : render false mIf = .error eI)
    (hnm : nonMathTok ev = true) :
    mathRun render (.DisplayMath mD :: rest) = .Html hD :: mathRun render rest
    ∧ mathRun render (.InlineMath mI :: rest) = .Html hI :: mathRun render rest
    ∧ mathRun render (.DisplayMath mDf :: t :: rest) = t :: mathRun render rest
    ∧ mathRun render (.InlineMath mIf :: t :: rest) = t :: mathRun render rest
    ∧ mathRun render [.DisplayMath mDf] = []
    ∧ mathRun render [.InlineMath mIf] = []
    ∧ mathRun render (ev :: rest) = ev :: mathRun render rest := by
  refine ⟨?_, ?_, ?_, ?_, ?_, ?_, ?_⟩
  · cases rest <;> simp [mathRun, hokD]
  · cases rest <;> simp [mathRun, hokI]
  · simp [mathRun, herrD]
  · simp [mathRun, herrI]
  · simp [mathRun, herrD]
  · simp [mathRun, herrI]
  · cases ev <;>
      first
      | (solve | (cases rest <;> simp [mathRun]))
      | simp [nonMathTok] at hnm

/-- Witness for C4 with the concrete engine `cRender`. -/
theorem c4_math_stage_witness :
    mathRun cRender [.DisplayMath "x"] = [.Html "X"]
    ∧ mathRun cRender [.InlineMath "x"] = [.Html "X"]
    ∧ mathRun cRender [.DisplayMath "bad", .Text "t"] = [.Text "t"]
    ∧ mathRun cRender [.InlineMath "bad", .Text "t"] = [.Text "t"]
    ∧ mathRun cRender [.DisplayMath "bad"] = []
    ∧ mathRun cRender [.InlineMath "bad"] = []
    ∧ mathRun cRender [.Text "e"] = [.Text "e"] := by
  have h := c4_math_stage cRender "x" "x" "bad" "bad" "X" "X"
    "parse error" "parse error" (.Text "t") (.Text "e") [] rfl rfl rfl rfl rfl
  exact ⟨h.1, h.2.1, h.2.2.1, h.2.2.2.1, h.2.2.2.2.1, h.2.2.2.2.2.1, h.2.2.2.2.2.2⟩

/-- Claim C5 (confirmed): when accumulation pulls a token that is not
plain text, inline math, or the end marker, it aborts at that token with
no accumulated text, the buffer holding every pulled token in pull
order; a non-empty buffer is emitted from, one token per pull, without
touching the upstream; and a buffered run replays the buffer verbatim
before the continuation of the stream. -/
theorem c5_abort_retains_buffer (ctx : Ctx) (tag : TagEnd) (text : String)
    (good : List Event) (bad : Event) (rest : List Event)
    (buf : List Event) (m : Option PostMeta) (a : Assets) (up up2 : List Event)
    (b : Event) (bs : List Event)
    (hg : ∀ e ∈ good, isAccTok e = true)
    (hb : isAccTok bad = false) (hbe : matchesEnd bad tag = false) :
    accumulate_plain_text tag text (good ++ bad :: rest) = (none, good ++ [bad], rest)
    ∧ ciNext ctx ⟨b :: bs, m, a⟩ up2 = (some b, ⟨bs, m, a⟩, up2)
    ∧ ciRun ctx ⟨buf, m, a⟩ up
        = (buf ++ (ciRun ctx ⟨[], m, a⟩ up).1, (ciRun ctx ⟨[], m, a⟩ up).2) :=
  ⟨accumulate_abort tag text good bad rest hg hb hbe, rfl,
   ciRun_drain ctx buf m a up⟩

/-- Witness for C5 at a concrete aborted block. -/
theorem c5_abort_retains_buffer_witness :
    accumulate_plain_text .CodeBlock "" [.Text "g", .Html "h", .Text "r"]
      = (none, [.Text "g", .Html "h"], [.Text "r"])
    ∧ ciNext baseCtx ⟨[.Text "b0"], none, []⟩ [] = (some (.Text "b0"), ⟨[], none, []⟩, [])
    ∧ ciRun baseCtx ⟨[.Text "z"], none, []⟩ []
        = ([.Text "z"] ++ (ciRun baseCtx ⟨[], none, []⟩ []).1,
           (ciRun baseCtx ⟨[], none, []⟩ []).2) := by
  have h := c5_abort_retains_buffer baseCtx .CodeBlock "" [.Text "g"] (.Html "h")
    [.Text "r"] [.Text "z"] none [] [] [] (.Text "b0") []
    (by decide) (by decide) (by decide)
  simpa using h

/-- Claim C8 (confirmed): when the highlighter rejects the language or
fails, the buffered original tokens are emitted verbatim (start marker,
literal content, end marker) and the stream continues. -/
theorem c8_highlight_error_passthrough (ctx : Ctx) (m : Option PostMeta)
    (a : Assets) (lang : String) (content rest : List Event) (err : HlError)
    (hc : ∀ e ∈ content, isAccTok e = true)
    (hh : ctx.highlight lang (accText content).trimRight = .error err) :
    ciRun ctx ⟨[], m, a⟩ (.StartCodeBlock lang :: (content ++ .EndCodeBlock :: rest))
      = (.StartCodeBlock lang :: content ++ .EndCodeBlock ::
           (ciRun ctx ⟨[], m, a⟩ rest).1,
         (ciRun ctx ⟨[], m, a⟩ rest).2) := by
  rw [ciRun_eq_some _ _ _ _ _ _ (ciNext_code_err ctx m a lang content rest err hc hh),
    ciRun_drain]
  simp

/-- Witness for C8: an unsupported language degrades to plain text. -/
theorem c8_highlight_error_passthrough_witness :
    ciRun baseCtx ⟨[], none, []⟩ [.StartCodeBlock "zzz", .Text "code", .EndCodeBlock]
      = ([.StartCodeBlock "zzz", .Text "code", .EndCodeBlock], ⟨[], none, []⟩) := by
  have h := c8_highlight_error_passthrough baseCtx none [] "zzz" [.Text "code"] []
    (.UnsupportedLanguage "zzz") (by decide) rfl
  rw [ciRun_nil] at h
  simpa using h

/-- Claim C10 (confirmed): the pull loop is total (`ciRun` is a function
into finite lists), and when the upstream ends in the middle of a block
the accumulation returns failure, the start token is emitted, the
partially buffered tokens are replayed verbatim, and the stage ends the
stream — for each of the three block kinds. -/
theorem c10_truncated_block (ctx : Ctx) (m : Option PostMeta) (a : Assets)
    (lang url : String) (good : List Event)
    (hg : ∀ e ∈ good, isAccTok e = true) :
    accumulate_plain_text .CodeBlock "" good = (none, good, [])
    ∧ ciRun ctx ⟨[], m, a⟩ (.StartCodeBlock lang :: good)
        = (.StartCodeBlock lang :: good, ⟨[], m, a⟩)
    ∧ ciRun ctx ⟨[], m, a⟩ (.StartImage url :: good)
        = (.StartImage url :: good, ⟨[], m, a⟩)
    ∧ ciRun ctx ⟨[], m, a⟩ (.StartMetadataBlock :: good)
        = (.StartMetadataBlock :: good, ⟨[], m, a⟩) := by
  refine ⟨accumulate_exhaust .CodeBlock "" good hg, ?_, ?_, ?_⟩
  · rw [ciRun_eq_some _ _ _ _ _ _ (ciNext_code_exhaust ctx m a lang good hg),
      ciRun_drain, ciRun_nil]
    simp
  · rw [ciRun_eq_some _ _ _ _ _ _ (ciNext_image_exhaust ctx m a url good hg),
      ciRun_drain, ciRun_nil]
    simp
  · rw [ciRun_eq_some _ _ _ _ _ _ (ciNext_meta_exhaust ctx m a good hg),
      ciRun_drain, ciRun_nil]
    simp

/-- Witness for C10: a code block cut off by the end of the stream. -/
theorem c10_truncated_block_witness :
    accumulate_plain_text .CodeBlock "" [.Text "half"] = (none, [.Text "half"], [])
    ∧ ciRun baseCtx ⟨[], none, []⟩ [.StartCodeBlock "rs", .Text "half"]
        = ([.StartCodeBlock "rs", .Text "half"], ⟨[], none, []⟩)
    ∧ ciRun baseCtx ⟨[], none, []⟩ [.StartImage "u", .Text "half"]
        = ([.StartImage "u", .Text "half"], ⟨[], none, []⟩)
    ∧ ciRun baseCtx ⟨[], none, []⟩ [.StartMetadataBlock, .Text "half"]
        = ([.StartMetadataBlock, .Text "half"], ⟨[], none, []⟩) := by
  have h := c10_truncated_block baseCtx none [] "rs" "u" [.Text "half"] (by decide)
  simpa using h

/-- Claim C3 (confirmed): on a successfully parsed metadata block the
missing title/date are filled from the computed defaults, missing tags
default to `[]`, the comment reference is present exactly when both
`ghcommentid` and `ghcommentauthors` are supplied, the resulting
metadata is written into the document's slot (the run threads the new
value, so a later block overwrites it), the buffered block tokens are
discarded, and no output token is emitted for the block: the next
emission is the token immediately following the block (or the stream
ends when the block is last). -/
theorem c3_metadata_success (ctx : Ctx) (m : Option PostMeta) (a : Assets)
    (content rest : List Event) (t : Event) (mr : PostMetaIncomplete)
    (hc : ∀ e ∈ content, isAccTok e = true)
    (hp : ctx.parseMeta (accText content) = .ok mr) :
    ciRun ctx ⟨[], m, a⟩ (.StartMetadataBlock :: (content ++ [.EndMetadataBlock]))
      = ([], ⟨[], some (builtMeta ctx mr), a⟩)
    ∧ ciRun ctx ⟨[], m, a⟩
        (.StartMetadataBlock :: (content ++ .EndMetadataBlock :: t :: rest))
      = (t :: (ciRun ctx ⟨[], some (builtMeta ctx mr), a⟩ rest).1,
         (ciRun ctx ⟨[], some (builtMeta ctx mr), a⟩ rest).2)
    ∧ builtMeta ctx mr
      = { title := mr.title.getD ctx.defaultTitle,
          date := mr.date.getD ctx.defaultDate,
          tags := mr.tags.getD [],
          ghcomment := optZip mr.ghcommentid mr.ghcommentauthors }
    ∧ (builtMeta ctx mr).ghcomment.isSome
      = (mr.ghcommentid.isSome && mr.ghcommentauthors.isSome) := by
  refine ⟨?_, ?_, rfl, optZip_isSome _ _⟩
  · exact ciRun_eq_none ctx _ _ _ _ (ciNext_meta_ok ctx m a content [] mr hc hp)
  · exact ciRun_eq_some ctx _ _ _ _ _
      (ciNext_meta_ok ctx m a content (t :: rest) mr hc hp)

/-- Witness for C3 with the always-succeeding metadata parser. -/
theorem c3_metadata_success_witness :
    ciRun wctxMeta ⟨[], none, []⟩ [.StartMetadataBlock, .Text "meta", .EndMetadataBlock]
      = ([], ⟨[], some (builtMeta wctxMeta mr0), []⟩)
    ∧ ciRun wctxMeta ⟨[], none, []⟩
        [.StartMetadataBlock, .Text "meta", .EndMetadataBlock, .Text "t"]
      = ([.Text "t"], ⟨[], some (builtMeta wctxMeta mr0), []⟩)
    ∧ builtMeta wctxMeta mr0 = ⟨"T", "2024-01-02T03:04:05Z", ["x", "y"], some (5, ["au"])⟩
    ∧ (builtMeta wctxMeta mr0).ghcomment.isSome = true := by
  have h := c3_metadata_success wctxMeta none [] [.Text "meta"] [] (.Text "t") mr0
    (by decide) rfl
  obtain ⟨h1, h2, -, -⟩ := h
  rw [ciRun_nil] at h2
  refine ⟨by simpa using h1, by simpa using h2, rfl, rfl⟩

/-- Claim C9 (confirmed): the token after a parsed metadata block is
returned by a direct upstream pull, bypassing the stage's own trigger
matching — a fenced code block starting right there is passed through
raw, never highlighted, whatever the highlighter would say — and a math
token immediately following a math token whose rendering failed is
emitted unrendered. -/
theorem c9_direct_pull_bypass (ctx : Ctx) (m : Option PostMeta) (a : Assets)
    (mcontent ccontent rest rest2 : List Event) (lang : String)
    (mr : PostMetaIncomplete)
    (render : Bool → String → Except String String) (msrc e : String)
    (t t2 : Event) (mrest : List Event)
    (hmc : ∀ x ∈ mcontent, isAccTok x = true)
    (hcc : ∀ x ∈ ccontent, isAccTok x = true)
    (hp : ctx.parseMeta (accText mcontent) = .ok mr)
    (herr : render false msrc = .error e) :
    ciRun ctx ⟨[], m, a⟩
        (.StartMetadataBlock :: (mcontent ++ .EndMetadataBlock :: t2 :: rest2))
      = (t2 :: (ciRun ctx ⟨[], some (builtMeta ctx mr), a⟩ rest2).1,
         (ciRun ctx ⟨[], some (builtMeta ctx mr), a⟩ rest2).2)
    ∧ ciRun ctx ⟨[], m, a⟩
        (.StartMetadataBlock :: (mcontent ++ .EndMetadataBlock ::
          .StartCodeBlock lang :: (ccontent ++ .EndCodeBlock :: rest)))
      = (.StartCodeBlock lang :: ccontent ++ .EndCodeBlock ::
           (ciRun ctx ⟨[], some (builtMeta ctx mr), a⟩ rest).1,
         (ciRun ctx ⟨[], some (builtMeta ctx mr), a⟩ rest).2)
    ∧ mathRun render (.InlineMath msrc :: t :: mrest) = t :: mathRun render mrest := by
  refine ⟨?_, ?_, ?_⟩
  · exact ciRun_eq_some ctx _ _ _ _ _
      (ciNext_meta_ok ctx m a mcontent (t2 :: rest2) mr hmc hp)
  · rw [ciRun_eq_some ctx _ _ _ _ _
      (ciNext_meta_ok ctx m a mcontent
        (.StartCodeBlock lang :: (ccontent ++ .EndCodeBlock :: rest)) mr hmc hp)]
    have hl : ∀ x ∈ ccontent ++ [Event.EndCodeBlock], nonTrigger x = true := by
      intro x hx
      rcases List.mem_append.mp hx with hx | hx
      · exact nonTrigger_of_isAccTok (hcc x hx)
      · simp only [List.mem_singleton] at hx
        subst hx
        rfl
    have hre : ccontent ++ Event.EndCodeBlock :: rest
        = (ccontent ++ [Event.EndCodeBlock]) ++ rest := by simp
    rw [hre, ciRun_passthrough ctx (some (builtMeta ctx mr)) a
      (ccontent ++ [Event.EndCodeBlock]) rest hl]
    simp
  · simp [mathRun, herr]

/-- Witness for C9: a supported-language code block right after a parsed
metadata block comes out raw, and a math token after a failed one is
emitted unrendered. -/
theorem c9_direct_pull_bypass_witness :
    ciRun wctxMeta ⟨[], none, []⟩
        [.StartMetadataBlock, .Text "meta", .EndMetadataBlock, .StartImage "ii"]
      = ([.StartImage "ii"], ⟨[], some (builtMeta wctxMeta mr0), []⟩)
    ∧ ciRun wctxMeta ⟨[], none, []⟩
        [.StartMetadataBlock, .Text "meta", .EndMetadataBlock,
         .StartCodeBlock "rust", .Text "code", .EndCodeBlock]
      = ([.StartCodeBlock "rust", .Text "code", .EndCodeBlock],
         ⟨[], some (builtMeta wctxMeta mr0), []⟩)
    ∧ mathRun cRender [.InlineMath "bad", .InlineMath "x"] = [.InlineMath "x"] := by
  have h := c9_direct_pull_bypass wctxMeta none [] [.Text "meta"] [.Text "code"] [] []
    "rust" mr0 cRender "bad" "parse error" (.InlineMath "x") (.StartImage "ii") []
    (by decide) (by decide) rfl rfl
  obtain ⟨h0, h1, h2⟩ := h
  rw [ciRun_nil] at h0 h1
  refine ⟨by simpa using h0, by simpa using h1, ?_⟩
  rw [h2]
  rfl

/-- Claim C7 (confirmed): an image reference whose alt text accumulates
successfully is treated as a local relative path exactly when
`url::Url::parse` fails with `RelativeUrlWithoutBase` (the run continues
into `imageLocalRun`, whose first act is resolution against the
document's directory); if the url parses as absolute, or fails for any
other reason, the original tokens pass through unchanged and no local
resolution is attempted. -/
theorem c7_url_classification (ctx : Ctx) (m : Option PostMeta) (a : Assets)
    (url : String) (content rest : List Event)
    (hc : ∀ e ∈ content, isAccTok e = true) :
    ciRun ctx ⟨[], m, a⟩ (.StartImage url :: (content ++ .EndImage :: rest))
      = match ctx.parseUrl url with
        | .error .RelativeUrlWithoutBase => imageLocalRun ctx m a url content rest
        | _ =>
          (.StartImage url :: content ++ .EndImage :: (ciRun ctx ⟨[], m, a⟩ rest).1,
           (ciRun ctx ⟨[], m, a⟩ rest).2) := by
  rcases hu : ctx.parseUrl url with err | uval
  · cases err with
    | RelativeUrlWithoutBase =>
      show _ = imageLocalRun ctx m a url content rest
      unfold imageLocalRun
      rcases hr : ctx.resolveFile url with - | path
      · rw [ciRun_eq_some _ _ _ _ _ _
          (ciNext_image_noresolve ctx m a url content rest hc hu hr), ciRun_drain]
        simp
      · cases hs : ctx.isSvgPath path with
        | true =>
          rw [ciRun_eq_some _ _ _ _ _ _
            (ciNext_image_svg ctx m a url path content rest hc hu hr hs), ciRun_drain]
          simp [hs]
        | false =>
          rw [ciRun_eq_some _ _ _ _ _ _
            (ciNext_image_raster ctx m a url path content rest hc hu hr hs), ciRun_drain]
          simp [hs]
    | OtherError msg =>
      show _ = (Event.StartImage url :: content ++ Event.EndImage ::
          (ciRun ctx ⟨[], m, a⟩ rest).1, (ciRun ctx ⟨[], m, a⟩ rest).2)
      rw [ciRun_eq_some _ _ _ _ _ _
        (ciNext_image_errother ctx m a url msg content rest hc hu), ciRun_drain]
      simp
  · show _ = (Event.StartImage url :: content ++ Event.EndImage ::
        (ciRun ctx ⟨[], m, a⟩ rest).1, (ciRun ctx ⟨[], m, a⟩ rest).2)
    rw [ciRun_eq_some _ _ _ _ _ _
      (ciNext_image_ok ctx m a url content rest uval hc hu), ciRun_drain]
    simp

/-- Witness for C7: an absolute url (`baseCtx.parseUrl` succeeds) passes
through with no resolution attempt. -/
theorem c7_url_classification_witness :
    ciRun baseCtx ⟨[], none, []⟩ [.StartImage "https", .Text "alt", .EndImage]
      = ([.StartImage "https", .Text "alt", .EndImage], ⟨[], none, []⟩) := by
  have h := c7_url_classification baseCtx none [] "https" [.Text "alt"] [] (by decide)
  rw [ciRun_nil] at h
  simpa using h

/-- Claim C6, counterexample: the alt-content token `Text "alt"` — an
original image token — is still present in the emitted stream in both
the svg and the raster branch, so the buffer is not cleared and
reseeded with synthesized output only. -/
theorem c6_figure_replacement_counterexample :
    Event.Text "alt"
      ∈ (ciRun cctx6 ⟨[], none, []⟩ [.StartImage "u", .Text "alt", .EndImage]).1
    ∧ Event.Text "alt"
      ∈ (ciRun cctx6 ⟨[], none, []⟩ [.StartImage "v", .Text "alt", .EndImage]).1 := by
  constructor
  · show Event.Text "alt" ∈ (ciRun cctx6 ⟨[], none, []⟩
      (.StartImage "u" :: ([.Text "alt"] ++ .EndImage :: []))).1
    rw [ciRun_eq_some _ _ _ _ _ _
      (ciNext_image_svg cctx6 none [] "u" "f.svg" [.Text "alt"] [] (by decide)
        rfl rfl rfl), ciRun_drain]
    simp [handle_svg_image, cctx6, baseCtx]
  · show Event.Text "alt" ∈ (ciRun cctx6 ⟨[], none, []⟩
      (.StartImage "v" :: ([.Text "alt"] ++ .EndImage :: []))).1
    rw [ciRun_eq_some _ _ _ _ _ _
      (ciNext_image_raster cctx6 none [] "v" "f.png" [.Text "alt"] [] (by decide)
        rfl rfl rfl), ciRun_drain]
    simp [handle_raster_image, cctx6, baseCtx]

/-- Claim C6 (corrected): on success the image-start token is replaced
by the figure-opening markup and the image-end token by the
figcaption-closing markup, but the alt-content tokens are *not*
replaced: the buffer is edited in place (drop the end token, push the
closing markup, push the caption opener and the figure content at the
front), so the original alt tokens are emitted verbatim between the
inserted figcaption markup, in both branches. -/
theorem c6_figure_replacement (ctx : Ctx) (m : Option PostMeta) (a : Assets)
    (url1 url2 path1 path2 : String) (content1 content2 rest1 rest2 : List Event)
    (source : String) (im : Image) (bytes : List Nat)
    (hc1 : ∀ e ∈ content1, isAccTok e = true)
    (hc2 : ∀ e ∈ content2, isAccTok e = true)
    (hu1 : ctx.parseUrl url1 = .error .RelativeUrlWithoutBase)
    (hr1 : ctx.resolveFile url1 = some path1)
    (hs1 : ctx.isSvgPath path1 = true)
    (hread : ctx.readFile path1 = .ok source)
    (hu2 : ctx.parseUrl url2 = .error .RelativeUrlWithoutBase)
    (hr2 : ctx.resolveFile url2 = some path2)
    (hs2 : ctx.isSvgPath path2 = false)
    (hopen : ctx.imageOpen path2 = .ok im)
    (henc : ctx.webpEncode im = .ok bytes) :
    ciRun ctx ⟨[], m, a⟩ (.StartImage url1 :: (content1 ++ .EndImage :: rest1))
      = (.Html "<figure>" :: .Html (svg_cleaned ctx source (accText content1)) ::
           .Html "<figcaption>" :: content1 ++ .Html "</figcaption></figure>" ::
           (ciRun ctx ⟨[], m, a⟩ rest1).1,
         (ciRun ctx ⟨[], m, a⟩ rest1).2)
    ∧ ciRun ctx ⟨[], m, a⟩ (.StartImage url2 :: (content2 ++ .EndImage :: rest2))
      = (.Html "<figure>" ::
           .Html ("<img src=\"" ++ ("/" ++ (store_asset ctx.hashBytes a bytes "webp").1)
             ++ "\" alt=\"" ++ accText content2 ++ "\">") ::
           .Html "<figcaption>" :: content2 ++ .Html "</figcaption></figure>" ::
           (ciRun ctx ⟨[], m, (store_asset ctx.hashBytes a bytes "webp").2⟩ rest2).1,
         (ciRun ctx ⟨[], m, (store_asset ctx.hashBytes a bytes "webp").2⟩ rest2).2) := by
  constructor
  · rw [ciRun_eq_some _ _ _ _ _ _
      (ciNext_image_svg ctx m a url1 path1 content1 rest1 hc1 hu1 hr1 hs1), ciRun_drain]
    simp [handle_svg_image, hread]
  · rw [ciRun_eq_some _ _ _ _ _ _
      (ciNext_image_raster ctx m a url2 path2 content2 rest2 hc2 hu2 hr2 hs2), ciRun_drain]
    simp [handle_raster_image, hopen, henc]

/-- Witness for C6 in the concrete context `cctx6`. -/
theorem c6_figure_replacement_witness :
    ciRun cctx6 ⟨[], none, []⟩ [.StartImage "u", .Text "alt", .EndImage]
      = ([.Html "<figure>", .Html "S", .Html "<figcaption>", .Text "alt",
          .Html "</figcaption></figure>"], ⟨[], none, []⟩)
    ∧ ciRun cctx6 ⟨[], none, []⟩ [.StartImage "v", .Text "alt", .EndImage]
      = ([.Html "<figure>",
          .Html ("<img src=\"" ++ ("/" ++ (store_asset cctx6.hashBytes [] [7] "webp").1)
            ++ "\" alt=\"" ++ "alt" ++ "\">"),
          .Html "<figcaption>", .Text "alt", .Html "</figcaption></figure>"],
         ⟨[], none, (store_asset cctx6.hashBytes [] [7] "webp").2⟩) := by
  have h := c6_figure_replacement cctx6 none [] "u" "v" "f.svg" "f.png"
    [.Text "alt"] [.Text "alt"] [] [] "S" 0 [7]
    (by decide) (by decide) rfl rfl rfl rfl rfl rfl rfl rfl rfl
  obtain ⟨h1, h2⟩ := h
  rw [ciRun_nil] at h1 h2
  constructor
  · simpa [svg_cleaned, cctx6, baseCtx, accText, accTok] using h1
  · simpa [accText, accTok] using h2

/-- Claim C1, counterexample: the 16-bit hash is taken over the
*original* file source, not over the cleaned serialization — in `cctx1`
the original source `AA` hashes to 2 while the cleaned serialization
`a` hashes to 1, and the code's handler disagrees with the claim's
reading; moreover two *distinct* sources whose hashes collide (`AB` and
`CD`, both hashing to 2) produce identical prefixed ids, so distinctness
of the emitted ids is not unconditional. -/
theorem c1_svg_id_hash_counterexample :
    handle_svg_image cctx1 "img.svg" "alt" (Event.StartImage "u")
        [Event.Text "alt", Event.EndImage]
      ≠ handle_svg_image_claim cctx1 "img.svg" "alt" (Event.StartImage "u")
        [Event.Text "alt", Event.EndImage]
    ∧ elementIds (prefixIds (cctx1.hashStr "AB" % 65536) svgDoc1)
      = elementIds (prefixIds (cctx1.hashStr "CD" % 65536) svgDoc1)
    ∧ ("AB" : String) ≠ "CD" := by
  decide

/-- Claim C1 (corrected): after successful cleaning and
accessibility-attribute setting, the 16-bit hash is computed from the
*original* svg source as read from disk, every svg element that has an
id gets the hash (4 hex digits, plus a separating `-`) prepended to its
id, and for two svgs whose truncated source hashes *differ* all emitted
ids are distinct (ids collide when the 16-bit hashes collide, as the
counterexample shows). -/
theorem c1_svg_id_hash (ctx : Ctx) (source alt s1 s2 i1 i2 : String)
    (d d' dd : SvgDoc) (hh : Nat)
    (hparse : ctx.svgParse source = some d)
    (hclean : ctx.svgClean d alt = some d')
    (hne : ctx.hashStr s1 % 65536 ≠ ctx.hashStr s2 % 65536) :
    svg_cleaned ctx source alt
      = ctx.svgWrite (prefixIds (ctx.hashStr source % 65536) (svgDrain d'))
    ∧ elementIds (prefixIds hh dd)
      = (elementIds dd).map (fun i => hex4 hh ++ "-" ++ i)
    ∧ hex4 (ctx.hashStr s1 % 65536) ++ "-" ++ i1
      ≠ hex4 (ctx.hashStr s2 % 65536) ++ "-" ++ i2 := by
  refine ⟨by simp [svg_cleaned, hparse, hclean], elementIds_prefixIds hh dd, ?_⟩
  exact hex4_prefix_ne (Nat.mod_lt _ (by norm_num)) (Nat.mod_lt _ (by norm_num))
    hne i1 i2

/-- Witness for C1 in the concrete context `cctx1` (`A` hashes to 1,
`AA` to 2). -/
theorem c1_svg_id_hash_witness :
    svg_cleaned cctx1 "AA" "alt"
      = cctx1.svgWrite (prefixIds (cctx1.hashStr "AA" % 65536) (svgDrain svgDoc1))
    ∧ elementIds (prefixIds 2 svgDoc1)
      = (elementIds svgDoc1).map (fun i => hex4 2 ++ "-" ++ i)
    ∧ hex4 (cctx1.hashStr "A" % 65536) ++ "-" ++ "a"
      ≠ hex4 (cctx1.hashStr "AA" % 65536) ++ "-" ++ "a" :=
  c1_svg_id_hash cctx1 "AA" "alt" "A" "AA" "a" "a" svgDoc1 svgDoc1 svgDoc1 2
    rfl rfl (by decide)

end SSG
